import Mathlib

/-!
# Realm `Spec`: the column catalog of one table

A shallow embedding of `realm/spec.hpp` (class `realm::Spec`).  The inline member
functions of the header are translated one by one; members that the header only
declares (`insert_column`, `erase_column`, `get_key`, `upgrade_string_to_enum`,
`is_string_enum_type`, `get_enumkeys_ref`, `migrate_column_keys`, `operator==`) and the
array primitive behind the five member arrays are modelled from the written
specification and marked as such.

Conventions
* an `int64_t` is an `Int`, and arithmetic that can leave the 64-bit range is wrapped
  by `wrap64`; the conversion `int(...)` is `toInt32`;
* a `size_t` is a `Nat`; `npos` is `size_t(-1)` on a 64-bit target;
* a call either returns (`Except.ok`) or stops with a `Fault`.
-/

namespace Realm

/-- The two ways a call can stop early. -/
inductive Fault where
  /-- a `REALM_ASSERT` of `Spec` did not hold -/
  | assertion
  /-- a member array was addressed outside `[0, size)` -/
  | outOfRange
  deriving DecidableEq, Repr

instance {ε α : Type} [DecidableEq ε] [DecidableEq α] : DecidableEq (Except ε α)
  | .ok a, .ok b => if h : a = b then isTrue (by rw [h]) else isFalse (by simp [h])
  | .error a, .error b => if h : a = b then isTrue (by rw [h]) else isFalse (by simp [h])
  | .ok _, .error _ => isFalse (by simp)
  | .error _, .ok _ => isFalse (by simp)

/-- Two's complement wrap of an integer into the `int64_t` range. -/
def wrap64 (x : Int) : Int := (x + 2 ^ 63) % 2 ^ 64 - 2 ^ 63

/-- The conversion `int(x)`: two's complement wrap into the 32-bit range. -/
def toInt32 (x : Int) : Int := (x + 2 ^ 31) % 2 ^ 32 - 2 ^ 31

/-- The value `size_t(-1)` (64-bit `size_t`), the "not found" result of a search. -/
def npos : Nat := 2 ^ 64 - 1

/-- Modelled from the spec: the statement `REALM_ASSERT(c)` (`realm/util/assert.hpp` is
not among the sources), the internal consistency assertion through which a precondition
violation fails fast. -/
def REALM_ASSERT (c : Bool) : Except Fault Unit :=
  if c then .ok () else .error .assertion

/-! ## The array primitive -/

namespace Seq

/-- Modelled from the spec: `size()` of the sequence primitive (`realm/array.hpp` and
`realm/array_string_short.hpp` are not among the sources). -/
def size {α : Type} (xs : List α) : Nat := xs.length

/-- Modelled from the spec: `get(i)` of the sequence primitive; an index outside the
sequence is reported as `Fault.outOfRange`. -/
def get {α : Type} (xs : List α) (i : Nat) : Except Fault α :=
  match xs[i]? with
  | some v => .ok v
  | none => .error .outOfRange

/-- Modelled from the spec: `set(i, v)` of the sequence primitive. -/
def set {α : Type} (xs : List α) (i : Nat) (v : α) : Except Fault (List α) :=
  if i < xs.length then .ok (xs.set i v) else .error .outOfRange

/-- Modelled from the spec: `insert(i, v)` of the sequence primitive; `i` may be the
size of the sequence (append). -/
def insert {α : Type} (xs : List α) (i : Nat) (v : α) : Except Fault (List α) :=
  if i ≤ xs.length then .ok (xs.take i ++ v :: xs.drop i) else .error .outOfRange

/-- Modelled from the spec: `erase(i)` of the sequence primitive. -/
def erase {α : Type} (xs : List α) (i : Nat) : Except Fault (List α) :=
  if i < xs.length then .ok (xs.take i ++ xs.drop (i + 1)) else .error .outOfRange

/-- Linear scan behind `find_first`: `pos` is the index of the head of `xs`. -/
def find_first_from {α : Type} [DecidableEq α] (xs : List α) (v : α) (pos : Nat) : Nat :=
  match xs with
  | [] => npos
  | x :: rest => if x = v then pos else find_first_from rest v (pos + 1)

/-- Modelled from the spec: `find_first(v)` of the sequence primitive, a first-match
linear scan that returns `npos` when nothing matches. -/
def find_first {α : Type} [DecidableEq α] (xs : List α) (v : α) : Nat :=
  find_first_from xs v 0

end Seq

/-! ## The descriptor -/

/-- The data members of `class Spec` that hold the catalog: the five member arrays and
the cached public column count. -/
structure Spec where
  /-- `Array m_types`: one packed cell per column -/
  m_types : List Int
  /-- `ArrayStringShort m_names` -/
  m_names : List String
  /-- `Array m_attr` -/
  m_attr : List Int
  /-- `Array m_enumkeys` -/
  m_enumkeys : List Int
  /-- `Array m_keys`: the `value` of each `ColKey` -/
  m_keys : List Int
  /-- `size_t m_num_public_columns` -/
  m_num_public_columns : Nat
  deriving DecidableEq, Repr

namespace Spec

/-- Modelled from the spec: the empty descriptor (`create_empty_spec` is only declared
in the header): no columns in any sequence. -/
def empty : Spec :=
  { m_types := [], m_names := [], m_attr := [], m_enumkeys := [], m_keys := [],
    m_num_public_columns := 0 }

/-- A descriptor with three columns, used to instantiate the statements below. -/
def sample : Spec :=
  { m_types := [0, 9, 2], m_names := ["a", "b", "c"], m_attr := [0, 1, 0],
    m_enumkeys := [0, 0, 7], m_keys := [100, 200, 300], m_num_public_columns := 3 }

/-- The data-model invariant: the five sequences have the same length. -/
def wellFormed (s : Spec) : Prop :=
  s.m_names.length = s.m_types.length ∧ s.m_attr.length = s.m_types.length ∧
    s.m_enumkeys.length = s.m_types.length ∧ s.m_keys.length = s.m_types.length

instance (s : Spec) : Decidable s.wellFormed := by
  unfold wellFormed; infer_instance

/-- `Spec::get_column_count`. -/
def get_column_count (s : Spec) : Nat := Seq.size s.m_types

/-- `Spec::get_public_column_count`. -/
def get_public_column_count (s : Spec) : Nat := s.m_num_public_columns

/-- `Spec::rename_column`. -/
def rename_column (s : Spec) (column_ndx : Nat) (new_name : String) : Except Fault Spec := do
  REALM_ASSERT (column_ndx < Seq.size s.m_types)
  let names ← Seq.set s.m_names column_ndx new_name
  pure { s with m_names := names }

/-- `Spec::get_column_type`: `ColumnType(int(m_types.get(ndx) & 0xFFFF))`. -/
def get_column_type (s : Spec) (ndx : Nat) : Except Fault Int := do
  REALM_ASSERT (ndx < s.get_column_count)
  let c ← Seq.get s.m_types ndx
  pure (toInt32 (Int.land c 0xFFFF))

/-- `Spec::get_column_attr`. -/
def get_column_attr (s : Spec) (ndx : Nat) : Except Fault Int := do
  REALM_ASSERT (ndx < s.get_column_count)
  Seq.get s.m_attr ndx

/-- `Spec::set_dictionary_key_type`: the cell becomes
`(type & 0xFFFF) + (int64_t(key_type) << 16)`. -/
def set_dictionary_key_type (s : Spec) (ndx : Nat) (key_type : Int) : Except Fault Spec := do
  let type ← Seq.get s.m_types ndx
  let types ← Seq.set s.m_types ndx (wrap64 (Int.land type 0xFFFF + wrap64 (key_type <<< (16 : Int))))
  pure { s with m_types := types }

/-- `Spec::get_dictionary_key_type`: `DataType(int(m_types.get(ndx) >> 16))`. -/
def get_dictionary_key_type (s : Spec) (ndx : Nat) : Except Fault Int := do
  REALM_ASSERT (ndx < s.get_column_count)
  let c ← Seq.get s.m_types ndx
  pure (toInt32 (c >>> (16 : Nat)))

/-- `Spec::set_column_attr`. -/
def set_column_attr (s : Spec) (column_ndx : Nat) (attr : Int) : Except Fault Spec := do
  REALM_ASSERT (column_ndx < s.get_column_count)
  let attrs ← Seq.set s.m_attr column_ndx attr
  pure { s with m_attr := attrs }

/-- `Spec::get_column_name`. -/
def get_column_name (s : Spec) (ndx : Nat) : Except Fault String :=
  Seq.get s.m_names ndx

/-- `Spec::get_column_index`. -/
def get_column_index (s : Spec) (name : String) : Nat :=
  Seq.find_first s.m_names name

/-! ### Members that the header only declares -/

/-- Modelled from the spec: `insert_column(index, key, type, name, attr)`, defined in
`spec.cpp`, which is not among the sources: "inserts a new column at `index`
(0 ≤ index ≤ total_count), shifting all existing columns at ≥ index up by one position
in every sequence"; an index beyond the count is a precondition violation.  The new
column starts not enumerated, so its enumeration reference is zero. -/
def insert_column (s : Spec) (column_ndx : Nat) (column_key : Int) (type : Int)
    (name : String) (attr : Int) : Except Fault Spec := do
  REALM_ASSERT (column_ndx ≤ s.get_column_count)
  let types ← Seq.insert s.m_types column_ndx type
  let names ← Seq.insert s.m_names column_ndx name
  let attrs ← Seq.insert s.m_attr column_ndx attr
  let enumkeys ← Seq.insert s.m_enumkeys column_ndx 0
  let keys ← Seq.insert s.m_keys column_ndx column_key
  pure { s with m_types := types, m_names := names, m_attr := attrs,
                m_enumkeys := enumkeys, m_keys := keys }

/-- Modelled from the spec: `erase_column(index)`, defined in `spec.cpp`, which is not
among the sources: "removes the column at `index`, shifting later columns down"; an
index that is not a column is a precondition violation. -/
def erase_column (s : Spec) (column_ndx : Nat) : Except Fault Spec := do
  REALM_ASSERT (column_ndx < s.get_column_count)
  let types ← Seq.erase s.m_types column_ndx
  let names ← Seq.erase s.m_names column_ndx
  let attrs ← Seq.erase s.m_attr column_ndx
  let enumkeys ← Seq.erase s.m_enumkeys column_ndx
  let keys ← Seq.erase s.m_keys column_ndx
  pure { s with m_types := types, m_names := names, m_attr := attrs,
                m_enumkeys := enumkeys, m_keys := keys }

/-- Modelled from the spec: `get_key(index)`, defined in `spec.cpp`, which is not among
the sources: "key lookup by position". -/
def get_key (s : Spec) (column_ndx : Nat) : Except Fault Int := do
  REALM_ASSERT (column_ndx < s.get_column_count)
  Seq.get s.m_keys column_ndx

/-- Modelled from the spec: `upgrade_string_to_enum(index, enum_table_ref)`, defined in
`spec.cpp`, which is not among the sources: "this component only records the
reference". -/
def upgrade_string_to_enum (s : Spec) (column_ndx : Nat) (keys_ref : Int) :
    Except Fault Spec := do
  REALM_ASSERT (column_ndx < s.get_column_count)
  let enumkeys ← Seq.set s.m_enumkeys column_ndx keys_ref
  pure { s with m_enumkeys := enumkeys }

/-- Modelled from the spec: `is_string_enum_type(index)`, defined in `spec.cpp`, which
is not among the sources: in `enum_refs`, "zero/null means not enumerated". -/
def is_string_enum_type (s : Spec) (column_ndx : Nat) : Except Fault Bool := do
  REALM_ASSERT (column_ndx < s.get_column_count)
  let r ← Seq.get s.m_enumkeys column_ndx
  pure (r != 0)

/-- Modelled from the spec: one step of the comparison of `operator==`: the columns at
index `i` of `a` and `b` agree on type cell, name, attribute and enumeration state.  The
column keys are not looked at. -/
def column_eq (a b : Spec) (i : Nat) : Bool :=
  decide (a.m_types[i]? = b.m_types[i]?) && decide (a.m_names[i]? = b.m_names[i]?) &&
    decide (a.m_attr[i]? = b.m_attr[i]?) &&
    decide ((a.m_enumkeys[i]?).map (fun r => r != 0) = (b.m_enumkeys[i]?).map (fun r => r != 0))

/-- Modelled from the spec: `operator==`, defined in `spec.cpp`, which is not among
the sources: "compares two descriptors column-by-column on (type, name, attribute,
enum-state) — not on column keys". -/
def operator_eq (a b : Spec) : Bool :=
  a.get_column_count == b.get_column_count &&
    (List.range a.get_column_count).all (column_eq a b)

/-- `Spec::operator!=`: `!(*this == s)`. -/
def operator_ne (a b : Spec) : Bool :=
  !(a.operator_eq b)

/-- The enumeration state of every column: whether its `enum_refs` entry is non-zero. -/
def enum_states (s : Spec) : List Bool :=
  s.m_enumkeys.map (fun r => r != 0)

/-- Modelled from the spec: `get_enumkeys_ref(index, keys_parent)`, defined in
`spec.cpp`, which is not among the sources: it "returns the stored reference together
with a handle allowing the caller to rewrite that reference later".  The handle is the
`enum_refs` adapter itself and carries no value of its own here. -/
def get_enumkeys_ref (s : Spec) (column_ndx : Nat) : Except Fault Int := do
  REALM_ASSERT (column_ndx < s.get_column_count)
  Seq.get s.m_enumkeys column_ndx

/-- `static constexpr size_t s_types_ndx = 0`. -/
def s_types_ndx : Nat := 0

/-- `static constexpr size_t s_names_ndx = 1`. -/
def s_names_ndx : Nat := 1

/-- `static constexpr size_t s_attributes_ndx = 2`. -/
def s_attributes_ndx : Nat := 2

/-- `static constexpr size_t s_vacant_1 = 3`. -/
def s_vacant_1 : Nat := 3

/-- `static constexpr size_t s_enum_keys_ndx = 4`. -/
def s_enum_keys_ndx : Nat := 4

/-- `static constexpr size_t s_col_keys_ndx = 5`. -/
def s_col_keys_ndx : Nat := 5

/-- `static constexpr size_t s_spec_max_size = 6`. -/
def s_spec_max_size : Nat := 6

/-- The five member arrays that the constructor binds to `m_top`. -/
inductive Member where
  | m_types
  | m_names
  | m_attr
  | m_enumkeys
  | m_keys
  deriving DecidableEq, Repr

/-- The constructor `Spec::Spec(Allocator&)`: the slot of `m_top` that each
`set_parent(&m_top, ...)` call gives to a member array. -/
def ndx_in_parent : Member → Nat
  | .m_types => s_types_ndx
  | .m_names => s_names_ndx
  | .m_attr => s_attributes_ndx
  | .m_enumkeys => s_enum_keys_ndx
  | .m_keys => s_col_keys_ndx

/-- The cell of `set_dictionary_key_type` as the specification words it: clear the bits
from 16 up of the old cell, then OR in `key_type << 16`. -/
def clear_and_or (type key_type : Int) : Int :=
  Int.lor (Int.land type 0xFFFF) (wrap64 (key_type <<< (16 : Int)))

end Spec

/-! ## Sequences of mutating calls -/

/-- A mutating call of `Spec` together with its arguments. -/
inductive Op where
  | insert_column (column_ndx : Nat) (column_key type : Int) (name : String) (attr : Int)
  | erase_column (column_ndx : Nat)
  | rename_column (column_ndx : Nat) (new_name : String)
  | set_column_attr (column_ndx : Nat) (attr : Int)
  | set_dictionary_key_type (ndx : Nat) (key_type : Int)
  | upgrade_string_to_enum (column_ndx : Nat) (keys_ref : Int)
  deriving DecidableEq, Repr

namespace Spec

/-- Perform one call. -/
def step (s : Spec) : Op → Except Fault Spec
  | .insert_column i k t n a => s.insert_column i k t n a
  | .erase_column i => s.erase_column i
  | .rename_column i n => s.rename_column i n
  | .set_column_attr i a => s.set_column_attr i a
  | .set_dictionary_key_type i k => s.set_dictionary_key_type i k
  | .upgrade_string_to_enum i r => s.upgrade_string_to_enum i r

/-- Perform a sequence of calls, stopping at the first one that fails. -/
def run (s : Spec) : List Op → Except Fault Spec
  | [] => .ok s
  | op :: rest =>
    match s.step op with
    | .ok s' => run s' rest
    | .error e => .error e

end Spec

/-! ## Arithmetic of the packed type cell -/

theorem nat_ldiff_low16 (m : Nat) : Nat.ldiff 65535 m = 65535 - m % 65536 := by
  apply Nat.eq_of_testBit_eq
  intro i
  have h : m % 65536 < 2 ^ 16 := Nat.mod_lt _ (by norm_num)
  have e : 65535 - m % 65536 = 2 ^ 16 - (m % 65536 + 1) := by omega
  rw [e, Nat.testBit_two_pow_sub_succ h, Nat.testBit_ldiff]
  have e2 : (65535 : Nat) = 2 ^ 16 - 1 := by norm_num
  have e3 : (65536 : Nat) = 2 ^ 16 := by norm_num
  rw [e2, e3, Nat.testBit_two_pow_sub_one, Nat.testBit_mod_two_pow]
  by_cases hi : i < 16 <;> simp [hi]

/-- Masking with `0xFFFF` is reduction modulo `2^16`, also for a negative cell. -/
theorem land_low16 (c : Int) : Int.land c 0xFFFF = c % 65536 := by
  cases c with
  | ofNat m =>
    show ((m &&& 65535 : Nat) : Int) = (m : Int) % 65536
    have : m &&& 65535 = m % 65536 := Nat.and_pow_two_sub_one_eq_mod m 16
    rw [this]; norm_cast
  | negSucc m =>
    show ((Nat.ldiff 65535 m : Nat) : Int) = Int.negSucc m % 65536
    rw [nat_ldiff_low16]
    have h : m % 65536 < 65536 := Nat.mod_lt _ (by norm_num)
    rw [Int.negSucc_eq]
    omega

theorem shiftLeft_16 (k : Int) : k <<< (16 : Int) = k * 65536 := by
  have := Int.shiftLeft_eq_mul_pow k 16
  simpa using this

theorem shiftRight_16 (c : Int) : c >>> (16 : Nat) = c / 65536 := by
  rw [Int.shiftRight_eq_div_pow]; norm_num

theorem wrap64_of_range (x : Int) (h : -2 ^ 63 ≤ x ∧ x < 2 ^ 63) : wrap64 x = x := by
  unfold wrap64; omega

theorem toInt32_of_range (x : Int) (h : -2 ^ 31 ≤ x ∧ x < 2 ^ 31) : toInt32 x = x := by
  unfold toInt32; omega

/-- The cell written by `set_dictionary_key_type` for a 32-bit key type code: nothing
wraps. -/
theorem packed_cell (c K : Int) (hK : -2 ^ 31 ≤ K ∧ K < 2 ^ 31) :
    wrap64 (Int.land c 0xFFFF + wrap64 (K <<< (16 : Int))) = c % 65536 + K * 65536 := by
  rw [land_low16, shiftLeft_16]
  rw [wrap64_of_range (K * 65536) (by omega)]
  rw [wrap64_of_range _ (by omega)]

/-! ## The array primitive: basic facts -/

namespace Seq

theorem get_of_lt {α : Type} (xs : List α) (i : Nat) (h : i < xs.length) :
    get xs i = .ok (xs.get ⟨i, h⟩) := by
  simp [get, List.getElem?_eq_getElem h]

theorem get_of_le {α : Type} (xs : List α) (i : Nat) (h : xs.length ≤ i) :
    get xs i = .error .outOfRange := by
  simp [get, List.getElem?_eq_none h]

theorem get_eq_iff {α : Type} (xs : List α) (i : Nat) (v : α) :
    get xs i = .ok v ↔ xs[i]? = some v := by
  unfold get
  cases h : xs[i]? <;> simp

theorem get_congr {α : Type} (xs ys : List α) (i j : Nat) (h : xs[i]? = ys[j]?) :
    get xs i = get ys j := by
  simp [get, h]

theorem insert_of_le {α : Type} (xs : List α) (i : Nat) (v : α) (h : i ≤ xs.length) :
    insert xs i v = .ok (xs.take i ++ v :: xs.drop i) := by
  simp [insert, h]

theorem erase_of_lt {α : Type} (xs : List α) (i : Nat) (h : i < xs.length) :
    erase xs i = .ok (xs.take i ++ xs.drop (i + 1)) := by
  simp [erase, h]

theorem set_of_lt {α : Type} (xs : List α) (i : Nat) (v : α) (h : i < xs.length) :
    set xs i v = .ok (xs.set i v) := by
  simp [set, h]

theorem inserted_length {α : Type} (xs : List α) (i : Nat) (v : α) (h : i ≤ xs.length) :
    (xs.take i ++ v :: xs.drop i).length = xs.length + 1 := by
  simp [List.length_take]; omega

theorem inserted_at {α : Type} (xs : List α) (i : Nat) (v : α) (h : i ≤ xs.length) :
    (xs.take i ++ v :: xs.drop i)[i]? = some v := by
  rw [List.getElem?_append_right (by simp [List.length_take, h])]
  simp [List.length_take, h]

theorem inserted_above {α : Type} (xs : List α) (i j : Nat) (v : α) (h : i ≤ xs.length)
    (hj : i ≤ j) : (xs.take i ++ v :: xs.drop i)[j + 1]? = xs[j]? := by
  rw [List.getElem?_append_right (by simp [List.length_take]; omega)]
  have e : j + 1 - (xs.take i).length = (j - i) + 1 := by simp [List.length_take]; omega
  rw [e, List.getElem?_cons_succ, List.getElem?_drop]
  congr 1; omega

theorem inserted_below {α : Type} (xs : List α) (i j : Nat) (v : α) (h : i ≤ xs.length)
    (hj : j < i) : (xs.take i ++ v :: xs.drop i)[j]? = xs[j]? := by
  rw [List.getElem?_append_left (by simp [List.length_take]; omega)]
  rw [List.getElem?_take_of_lt hj]

theorem erased_length {α : Type} (xs : List α) (i : Nat) (h : i < xs.length) :
    (xs.take i ++ xs.drop (i + 1)).length + 1 = xs.length := by
  simp [List.length_take]; omega

theorem erased_above {α : Type} (xs : List α) (i j : Nat) (h : i < xs.length)
    (hj : i < j) : (xs.take i ++ xs.drop (i + 1))[j - 1]? = xs[j]? := by
  rw [List.getElem?_append_right (by simp [List.length_take]; omega)]
  rw [List.getElem?_drop]
  congr 1; simp [List.length_take]; omega

theorem erased_below {α : Type} (xs : List α) (i j : Nat) (h : i < xs.length)
    (hj : j < i) : (xs.take i ++ xs.drop (i + 1))[j]? = xs[j]? := by
  rw [List.getElem?_append_left (by simp [List.length_take]; omega)]
  rw [List.getElem?_take_of_lt hj]

end Seq

/-! ## C1 -/

namespace Spec

/-- C1. Masking round trip: at a valid index whose cell holds base type `T`, and for a
key type code `K` in the 32-bit range, `set_dictionary_key_type(i, K)` returns, after
which `get_dictionary_key_type(i)` is `K` and `get_column_type(i)` is still `T`. -/
theorem dictionary_key_type_round_trip (s : Spec) (i : Nat) (K T : Int)
    (hi : i < s.get_column_count) (hK : -2 ^ 31 ≤ K ∧ K < 2 ^ 31)
    (hT : s.get_column_type i = .ok T) :
    ∃ s', s.set_dictionary_key_type i K = .ok s' ∧
      s'.get_dictionary_key_type i = .ok K ∧ s'.get_column_type i = .ok T := by
  have hi' : i < s.m_types.length := hi
  refine ⟨{ s with m_types := s.m_types.set i (s.m_types[i] % 65536 + K * 65536) }, ?_, ?_, ?_⟩
  · simp [set_dictionary_key_type, Seq.get, Seq.set, hi', bind, Except.bind, pure, Except.pure,
      packed_cell _ K hK]
  · have hm := Int.emod_nonneg s.m_types[i] (by norm_num : (65536 : Int) ≠ 0)
    have hl := Int.emod_lt_of_pos s.m_types[i] (by norm_num : (0 : Int) < 65536)
    have hd : (s.m_types[i] % 65536 + K * 65536) / 65536 = K := by omega
    simp [get_dictionary_key_type, get_column_count, Seq.size, REALM_ASSERT, Seq.get, hi', bind,
      Except.bind, pure, Except.pure, shiftRight_16, hd, toInt32_of_range K hK]
  · have hT' : toInt32 (s.m_types[i] % 65536) = T := by
      simpa [get_column_type, get_column_count, Seq.size, REALM_ASSERT, Seq.get, hi', bind,
        Except.bind, pure, Except.pure, land_low16] using hT
    have hm : (s.m_types[i] % 65536 + K * 65536) % 65536 = s.m_types[i] % 65536 := by omega
    simp [get_column_type, get_column_count, Seq.size, REALM_ASSERT, Seq.get, hi', bind,
      Except.bind, pure, Except.pure, land_low16, hm, hT']

theorem dictionary_key_type_round_trip_witness :
    ∃ s', sample.set_dictionary_key_type 1 5 = .ok s' ∧
      s'.get_dictionary_key_type 1 = .ok 5 ∧ s'.get_column_type 1 = .ok 9 :=
  dictionary_key_type_round_trip sample 1 5 9 (by decide) (by decide) (by decide)

/-! ## C2 -/

/-- C2. Insert read-back: on a descriptor whose sequences are parallel, for an index
`i ≤ get_column_count()` and a base type code `T` (16 bits), `insert_column(i, K, T, N)`
returns; afterwards `get_column_type(i)` is `T`, `get_column_name(i)` is `N`,
`get_key(i)` is `K`, the column count has grown by one, and every entry that was at an
index `j ≥ i` of any of the five sequences is now at `j + 1`. -/
theorem insert_column_read_back (s : Spec) (i : Nat) (K T : Int) (N : String) (A : Int)
    (hwf : s.wellFormed) (hi : i ≤ s.get_column_count) (hT : 0 ≤ T ∧ T < 65536) :
    ∃ s', s.insert_column i K T N A = .ok s' ∧
      s'.get_column_type i = .ok T ∧ s'.get_column_name i = .ok N ∧
      s'.get_key i = .ok K ∧
      s'.get_column_count = s.get_column_count + 1 ∧
      ∀ j, i ≤ j → j < s.get_column_count →
        Seq.get s'.m_types (j + 1) = Seq.get s.m_types j ∧
        Seq.get s'.m_names (j + 1) = Seq.get s.m_names j ∧
        Seq.get s'.m_attr (j + 1) = Seq.get s.m_attr j ∧
        Seq.get s'.m_enumkeys (j + 1) = Seq.get s.m_enumkeys j ∧
        Seq.get s'.m_keys (j + 1) = Seq.get s.m_keys j := by
  obtain ⟨hn, ha, he, hk⟩ := hwf
  have hit : i ≤ s.m_types.length := hi
  have hin : i ≤ s.m_names.length := by omega
  have hia : i ≤ s.m_attr.length := by omega
  have hie : i ≤ s.m_enumkeys.length := by omega
  have hik : i ≤ s.m_keys.length := by omega
  refine ⟨{ s with m_types := s.m_types.take i ++ T :: s.m_types.drop i,
                   m_names := s.m_names.take i ++ N :: s.m_names.drop i,
                   m_attr := s.m_attr.take i ++ A :: s.m_attr.drop i,
                   m_enumkeys := s.m_enumkeys.take i ++ 0 :: s.m_enumkeys.drop i,
                   m_keys := s.m_keys.take i ++ K :: s.m_keys.drop i }, ?_, ?_, ?_, ?_, ?_, ?_⟩
  · simp [insert_column, get_column_count, Seq.size, REALM_ASSERT, Seq.insert, hit, hin, hia,
      hie, hik, bind, Except.bind, pure, Except.pure]
  · have hlen := Seq.inserted_length s.m_types i T hit
    have hm : T % 65536 = T := Int.emod_eq_of_lt hT.1 hT.2
    simp only [get_column_type, get_column_count, Seq.size, REALM_ASSERT, hlen,
      (Seq.get_eq_iff _ _ _).2 (Seq.inserted_at s.m_types i T hit)]
    simp [bind, Except.bind, pure, Except.pure, land_low16, hm,
      toInt32_of_range T (by omega), Nat.lt_succ_of_le hit]
  · exact (Seq.get_eq_iff _ _ _).2 (Seq.inserted_at s.m_names i N hin)
  · have hlen := Seq.inserted_length s.m_types i T hit
    simp only [get_key, get_column_count, Seq.size, REALM_ASSERT, hlen,
      (Seq.get_eq_iff _ _ _).2 (Seq.inserted_at s.m_keys i K hik)]
    simp [bind, Except.bind, Nat.lt_succ_of_le hit]
  · exact Seq.inserted_length s.m_types i T hit
  · intro j hij _
    exact ⟨Seq.get_congr _ _ _ _ (Seq.inserted_above s.m_types i j T hit hij),
      Seq.get_congr _ _ _ _ (Seq.inserted_above s.m_names i j N hin hij),
      Seq.get_congr _ _ _ _ (Seq.inserted_above s.m_attr i j A hia hij),
      Seq.get_congr _ _ _ _ (Seq.inserted_above s.m_enumkeys i j 0 hie hij),
      Seq.get_congr _ _ _ _ (Seq.inserted_above s.m_keys i j K hik hij)⟩

theorem insert_column_read_back_witness :
    ∃ s', sample.insert_column 1 400 5 "d" 0 = .ok s' ∧
      s'.get_column_type 1 = .ok 5 ∧ s'.get_column_name 1 = .ok "d" ∧
      s'.get_key 1 = .ok 400 ∧
      s'.get_column_count = sample.get_column_count + 1 ∧
      ∀ j, 1 ≤ j → j < sample.get_column_count →
        Seq.get s'.m_types (j + 1) = Seq.get sample.m_types j ∧
        Seq.get s'.m_names (j + 1) = Seq.get sample.m_names j ∧
        Seq.get s'.m_attr (j + 1) = Seq.get sample.m_attr j ∧
        Seq.get s'.m_enumkeys (j + 1) = Seq.get sample.m_enumkeys j ∧
        Seq.get s'.m_keys (j + 1) = Seq.get sample.m_keys j :=
  insert_column_read_back sample 1 400 5 "d" 0 (by decide) (by decide) (by decide)


/-! ## C3 -/

/-- C3. Erase shifts down: on a descriptor whose sequences are parallel and for a valid
index `i`, `erase_column(i)` returns; the column count drops by exactly one, every entry
at an index `j < i` stays in place, and every entry that was at an index `j > i` of the
keys, types, names, attributes (and enumeration references) is now at `j - 1`. -/
theorem erase_column_shifts_down (s : Spec) (i : Nat)
    (hwf : s.wellFormed) (hi : i < s.get_column_count) :
    ∃ s', s.erase_column i = .ok s' ∧
      s'.get_column_count + 1 = s.get_column_count ∧
      (∀ j, j < i →
        Seq.get s'.m_keys j = Seq.get s.m_keys j ∧
        Seq.get s'.m_types j = Seq.get s.m_types j ∧
        Seq.get s'.m_names j = Seq.get s.m_names j ∧
        Seq.get s'.m_attr j = Seq.get s.m_attr j ∧
        Seq.get s'.m_enumkeys j = Seq.get s.m_enumkeys j) ∧
      (∀ j, i < j → j < s.get_column_count →
        Seq.get s'.m_keys (j - 1) = Seq.get s.m_keys j ∧
        Seq.get s'.m_types (j - 1) = Seq.get s.m_types j ∧
        Seq.get s'.m_names (j - 1) = Seq.get s.m_names j ∧
        Seq.get s'.m_attr (j - 1) = Seq.get s.m_attr j ∧
        Seq.get s'.m_enumkeys (j - 1) = Seq.get s.m_enumkeys j) := by
  obtain ⟨hn, ha, he, hk⟩ := hwf
  have hit : i < s.m_types.length := hi
  have hin : i < s.m_names.length := by omega
  have hia : i < s.m_attr.length := by omega
  have hie : i < s.m_enumkeys.length := by omega
  have hik : i < s.m_keys.length := by omega
  refine ⟨{ s with m_types := s.m_types.take i ++ s.m_types.drop (i + 1),
                   m_names := s.m_names.take i ++ s.m_names.drop (i + 1),
                   m_attr := s.m_attr.take i ++ s.m_attr.drop (i + 1),
                   m_enumkeys := s.m_enumkeys.take i ++ s.m_enumkeys.drop (i + 1),
                   m_keys := s.m_keys.take i ++ s.m_keys.drop (i + 1) }, ?_, ?_, ?_, ?_⟩
  · simp [erase_column, get_column_count, Seq.size, REALM_ASSERT, Seq.erase, hit, hin, hia,
      hie, hik, bind, Except.bind, pure, Except.pure]
  · exact Seq.erased_length s.m_types i hit
  · intro j hj
    exact ⟨Seq.get_congr _ _ _ _ (Seq.erased_below s.m_keys i j hik hj),
      Seq.get_congr _ _ _ _ (Seq.erased_below s.m_types i j hit hj),
      Seq.get_congr _ _ _ _ (Seq.erased_below s.m_names i j hin hj),
      Seq.get_congr _ _ _ _ (Seq.erased_below s.m_attr i j hia hj),
      Seq.get_congr _ _ _ _ (Seq.erased_below s.m_enumkeys i j hie hj)⟩
  · intro j hj _
    exact ⟨Seq.get_congr _ _ _ _ (Seq.erased_above s.m_keys i j hik hj),
      Seq.get_congr _ _ _ _ (Seq.erased_above s.m_types i j hit hj),
      Seq.get_congr _ _ _ _ (Seq.erased_above s.m_names i j hin hj),
      Seq.get_congr _ _ _ _ (Seq.erased_above s.m_attr i j hia hj),
      Seq.get_congr _ _ _ _ (Seq.erased_above s.m_enumkeys i j hie hj)⟩

theorem erase_column_shifts_down_witness :
    ∃ s', sample.erase_column 0 = .ok s' ∧
      s'.get_column_count + 1 = sample.get_column_count ∧
      (∀ j, j < 0 →
        Seq.get s'.m_keys j = Seq.get sample.m_keys j ∧
        Seq.get s'.m_types j = Seq.get sample.m_types j ∧
        Seq.get s'.m_names j = Seq.get sample.m_names j ∧
        Seq.get s'.m_attr j = Seq.get sample.m_attr j ∧
        Seq.get s'.m_enumkeys j = Seq.get sample.m_enumkeys j) ∧
      (∀ j, 0 < j → j < sample.get_column_count →
        Seq.get s'.m_keys (j - 1) = Seq.get sample.m_keys j ∧
        Seq.get s'.m_types (j - 1) = Seq.get sample.m_types j ∧
        Seq.get s'.m_names (j - 1) = Seq.get sample.m_names j ∧
        Seq.get s'.m_attr (j - 1) = Seq.get sample.m_attr j ∧
        Seq.get s'.m_enumkeys (j - 1) = Seq.get sample.m_enumkeys j) :=
  erase_column_shifts_down sample 0 (by decide) (by decide)

/-! ## C4 -/

theorem wellFormed_insert_column (s s' : Spec) (i : Nat) (K T : Int) (N : String) (A : Int)
    (hwf : s.wellFormed) (h : s.insert_column i K T N A = .ok s') : s'.wellFormed := by
  obtain ⟨hn, ha, he, hk⟩ := hwf
  by_cases hi : i ≤ s.m_types.length
  · have hin : i ≤ s.m_names.length := by omega
    have hia : i ≤ s.m_attr.length := by omega
    have hie : i ≤ s.m_enumkeys.length := by omega
    have hik : i ≤ s.m_keys.length := by omega
    simp [insert_column, get_column_count, Seq.size, REALM_ASSERT, Seq.insert, hi, hin, hia,
      hie, hik, bind, Except.bind, pure, Except.pure] at h
    subst h
    simp only [wellFormed, Seq.inserted_length _ i _ hi, Seq.inserted_length _ i _ hin,
      Seq.inserted_length _ i _ hia, Seq.inserted_length _ i _ hie,
      Seq.inserted_length _ i _ hik]
    omega
  · simp [insert_column, get_column_count, Seq.size, REALM_ASSERT, hi, bind, Except.bind] at h

theorem wellFormed_erase_column (s s' : Spec) (i : Nat)
    (hwf : s.wellFormed) (h : s.erase_column i = .ok s') : s'.wellFormed := by
  obtain ⟨hn, ha, he, hk⟩ := hwf
  by_cases hi : i < s.m_types.length
  · have hin : i < s.m_names.length := by omega
    have hia : i < s.m_attr.length := by omega
    have hie : i < s.m_enumkeys.length := by omega
    have hik : i < s.m_keys.length := by omega
    simp [erase_column, get_column_count, Seq.size, REALM_ASSERT, Seq.erase, hi, hin, hia,
      hie, hik, bind, Except.bind, pure, Except.pure] at h
    subst h
    have h1 := Seq.erased_length _ i hi
    have h2 := Seq.erased_length _ i hin
    have h3 := Seq.erased_length _ i hia
    have h4 := Seq.erased_length _ i hie
    have h5 := Seq.erased_length _ i hik
    simp only [wellFormed]
    omega
  · simp [erase_column, get_column_count, Seq.size, REALM_ASSERT, hi, bind, Except.bind] at h

theorem wellFormed_rename_column (s s' : Spec) (i : Nat) (N : String)
    (hwf : s.wellFormed) (h : s.rename_column i N = .ok s') : s'.wellFormed := by
  obtain ⟨hn, ha, he, hk⟩ := hwf
  by_cases hi : i < s.m_types.length
  · have hin : i < s.m_names.length := by omega
    simp [rename_column, Seq.size, REALM_ASSERT, Seq.set, hi, hin, bind, Except.bind, pure,
      Except.pure] at h
    subst h
    simp [wellFormed, hn, ha, he, hk]
  · simp [rename_column, Seq.size, REALM_ASSERT, hi, bind, Except.bind] at h

theorem wellFormed_set_column_attr (s s' : Spec) (i : Nat) (A : Int)
    (hwf : s.wellFormed) (h : s.set_column_attr i A = .ok s') : s'.wellFormed := by
  obtain ⟨hn, ha, he, hk⟩ := hwf
  by_cases hi : i < s.m_types.length
  · have hia : i < s.m_attr.length := by omega
    simp [set_column_attr, get_column_count, Seq.size, REALM_ASSERT, Seq.set, hi, hia, bind,
      Except.bind, pure, Except.pure] at h
    subst h
    simp [wellFormed, hn, ha, he, hk]
  · simp [set_column_attr, get_column_count, Seq.size, REALM_ASSERT, hi, bind,
      Except.bind] at h

theorem wellFormed_set_dictionary_key_type (s s' : Spec) (i : Nat) (K : Int)
    (hwf : s.wellFormed) (h : s.set_dictionary_key_type i K = .ok s') : s'.wellFormed := by
  obtain ⟨hn, ha, he, hk⟩ := hwf
  by_cases hi : i < s.m_types.length
  · simp [set_dictionary_key_type, Seq.get, Seq.set, hi, bind, Except.bind, pure,
      Except.pure] at h
    subst h
    simp [wellFormed, hn, ha, he, hk]
  · simp [set_dictionary_key_type, Seq.get_of_le _ _ (Nat.le_of_not_lt hi), bind,
      Except.bind] at h

theorem wellFormed_upgrade_string_to_enum (s s' : Spec) (i : Nat) (R : Int)
    (hwf : s.wellFormed) (h : s.upgrade_string_to_enum i R = .ok s') : s'.wellFormed := by
  obtain ⟨hn, ha, he, hk⟩ := hwf
  by_cases hi : i < s.m_types.length
  · have hie : i < s.m_enumkeys.length := by omega
    simp [upgrade_string_to_enum, get_column_count, Seq.size, REALM_ASSERT, Seq.set, hi, hie,
      bind, Except.bind, pure, Except.pure] at h
    subst h
    simp [wellFormed, hn, ha, he, hk]
  · simp [upgrade_string_to_enum, get_column_count, Seq.size, REALM_ASSERT, hi, bind,
      Except.bind] at h

theorem wellFormed_step (s s' : Spec) (op : Op)
    (hwf : s.wellFormed) (h : s.step op = .ok s') : s'.wellFormed := by
  cases op with
  | insert_column i k t n a => exact wellFormed_insert_column s s' i k t n a hwf h
  | erase_column i => exact wellFormed_erase_column s s' i hwf h
  | rename_column i n => exact wellFormed_rename_column s s' i n hwf h
  | set_column_attr i a => exact wellFormed_set_column_attr s s' i a hwf h
  | set_dictionary_key_type i k => exact wellFormed_set_dictionary_key_type s s' i k hwf h
  | upgrade_string_to_enum i r => exact wellFormed_upgrade_string_to_enum s s' i r hwf h

theorem wellFormed_run (ops : List Op) : ∀ (s s' : Spec),
    s.wellFormed → s.run ops = .ok s' → s'.wellFormed := by
  induction ops with
  | nil =>
    intro s s' hwf h
    simp [run] at h
    subst h
    exact hwf
  | cons op rest ih =>
    intro s s' hwf h
    unfold run at h
    cases hs : s.step op with
    | error e => rw [hs] at h; simp at h
    | ok t =>
      rw [hs] at h
      exact ih t s' (wellFormed_step s t op hwf hs) h

/-- C4. Parallel-length invariant: a call of `insert_column`, `erase_column`,
`rename_column`, `set_column_attr`, `set_dictionary_key_type` or
`upgrade_string_to_enum` that starts with the five sequences of equal length ends with
them of equal length, and so does every state reached from the empty descriptor by a
sequence of such calls. -/
theorem parallel_length_invariant (s s1 : Spec) (op : Op) (ops : List Op) (s2 : Spec)
    (hwf : s.wellFormed) (hstep : s.step op = .ok s1) (hrun : empty.run ops = .ok s2) :
    s1.wellFormed ∧ s2.wellFormed :=
  ⟨wellFormed_step s s1 op hwf hstep,
    wellFormed_run ops empty s2 (by decide) hrun⟩


theorem parallel_length_invariant_witness :
    Spec.wellFormed { sample with m_names := ["a", "bb", "c"] } ∧
      Spec.wellFormed { m_types := [2, 10], m_names := ["bb", "c"], m_attr := [0, 0],
                        m_enumkeys := [0, 0], m_keys := [2, 3], m_num_public_columns := 0 } :=
  parallel_length_invariant sample _ (.rename_column 1 "bb")
    [.insert_column 0 1 0 "a" 0, .insert_column 1 2 2 "b" 0, .insert_column 2 3 10 "c" 0,
      .rename_column 1 "bb", .erase_column 0] _
    (by decide) (by decide) (by decide)

/-! ## C5 -/

theorem find_first_from_found {α : Type} [DecidableEq α] (xs : List α) (v : α) :
    ∀ pos, v ∈ xs → ∃ k, Seq.find_first_from xs v pos = pos + k ∧ xs[k]? = some v ∧
      ∀ j, j < k → xs[j]? ≠ some v := by
  induction xs with
  | nil => intro pos h; simp at h
  | cons x rest ih =>
    intro pos h
    by_cases hx : x = v
    · exact ⟨0, by simp [Seq.find_first_from, hx], by simp [hx], by intro j hj; omega⟩
    · have hmem : v ∈ rest := by
        rcases List.mem_cons.1 h with h1 | h1
        · exact absurd h1.symm hx
        · exact h1
      obtain ⟨k, hk, hat, hlow⟩ := ih (pos + 1) hmem
      refine ⟨k + 1, ?_, ?_, ?_⟩
      · simp only [Seq.find_first_from, hx, if_false, hk]; omega
      · simpa using hat
      · intro j hj
        cases j with
        | zero => simpa using hx
        | succ j => simpa using hlow j (by omega)

theorem find_first_from_absent {α : Type} [DecidableEq α] (xs : List α) (v : α) :
    ∀ pos, v ∉ xs → Seq.find_first_from xs v pos = npos := by
  induction xs with
  | nil => intro pos _; rfl
  | cons x rest ih =>
    intro pos h
    have hx : x ≠ v := fun e => h (by simp [e])
    have hr : v ∉ rest := fun e => h (List.mem_cons_of_mem _ e)
    simp only [Seq.find_first_from, hx, if_false]
    exact ih (pos + 1) hr

/-- C5. Name lookup is first-match: when some column has the name,
`get_column_index(name)` is a valid index, the column there has the name, and no lower
index has it; when no column has the name the result is `size_t(-1)`, which is not a
valid column index (the column count, a `size_t`, does not exceed it). -/
theorem get_column_index_first_match (s : Spec) (name : String)
    (hwf : s.wellFormed) (hsz : s.get_column_count < 2 ^ 64) :
    ((∃ i, s.get_column_name i = .ok name) →
      s.get_column_index name < s.get_column_count ∧
      s.get_column_name (s.get_column_index name) = .ok name ∧
      ∀ j, j < s.get_column_index name → s.get_column_name j ≠ .ok name) ∧
    ((∀ i, s.get_column_name i ≠ .ok name) →
      s.get_column_index name = npos ∧ s.get_column_count ≤ npos) := by
  constructor
  · rintro ⟨i, hi⟩
    have hmem : name ∈ s.m_names :=
      List.mem_iff_getElem?.2 ⟨i, (Seq.get_eq_iff _ _ _).1 hi⟩
    obtain ⟨k, hk, hat, hlow⟩ := find_first_from_found s.m_names name 0 hmem
    have hidx : s.get_column_index name = k := by
      simp [get_column_index, Seq.find_first, hk]
    rw [hidx]
    refine ⟨?_, (Seq.get_eq_iff _ _ _).2 hat, ?_⟩
    · have hlt : k < s.m_names.length := by
        by_contra hge
        rw [List.getElem?_eq_none (Nat.le_of_not_lt hge)] at hat
        simp at hat
      have := hwf.1
      show k < s.m_types.length
      omega
    · intro j hj hname
      exact hlow j hj ((Seq.get_eq_iff _ _ _).1 hname)
  · intro hnone
    have hmem : name ∉ s.m_names := by
      intro h
      obtain ⟨i, hi⟩ := List.mem_iff_getElem?.1 h
      exact hnone i ((Seq.get_eq_iff _ _ _).2 hi)
    refine ⟨find_first_from_absent s.m_names name 0 hmem, ?_⟩
    have : s.get_column_count < 2 ^ 64 := hsz
    unfold npos
    omega

theorem get_column_index_first_match_witness :
    ((∃ i, sample.get_column_name i = .ok "b") →
      sample.get_column_index "b" < sample.get_column_count ∧
      sample.get_column_name (sample.get_column_index "b") = .ok "b" ∧
      ∀ j, j < sample.get_column_index "b" → sample.get_column_name j ≠ .ok "b") ∧
    ((∀ i, sample.get_column_name i ≠ .ok "b") →
      sample.get_column_index "b" = npos ∧ sample.get_column_count ≤ npos) :=
  get_column_index_first_match sample "b" (by decide) (by decide)

/-! ## C6 -/

/-- C6. Rename frame: on a descriptor whose sequences are parallel and for a valid
index `i`, `rename_column(i, N)` returns; afterwards `get_column_name(i)` is `N`, the
types, attributes, enumeration references and keys, the public column count and the
column count are what they were, and so is the name of every column `j ≠ i`. -/
theorem rename_column_frame (s : Spec) (i : Nat) (N : String)
    (hwf : s.wellFormed) (hi : i < s.get_column_count) :
    ∃ s', s.rename_column i N = .ok s' ∧ s'.get_column_name i = .ok N ∧
      s'.m_types = s.m_types ∧ s'.m_attr = s.m_attr ∧ s'.m_enumkeys = s.m_enumkeys ∧
      s'.m_keys = s.m_keys ∧
      s'.get_public_column_count = s.get_public_column_count ∧
      s'.get_column_count = s.get_column_count ∧
      ∀ j, j ≠ i → s'.get_column_name j = s.get_column_name j := by
  have hit : i < s.m_types.length := hi
  have hin : i < s.m_names.length := by have := hwf.1; omega
  refine ⟨{ s with m_names := s.m_names.set i N }, ?_, ?_, rfl, rfl, rfl, rfl, rfl, rfl, ?_⟩
  · simp [rename_column, Seq.size, REALM_ASSERT, Seq.set, hit, hin, bind, Except.bind, pure,
      Except.pure]
  · simp [get_column_name, Seq.get, hin]
  · intro j hj
    simp [get_column_name, Seq.get, List.getElem?_set_ne (Ne.symm hj)]

theorem rename_column_frame_witness :
    ∃ s', sample.rename_column 1 "bb" = .ok s' ∧ s'.get_column_name 1 = .ok "bb" ∧
      s'.m_types = sample.m_types ∧ s'.m_attr = sample.m_attr ∧
      s'.m_enumkeys = sample.m_enumkeys ∧ s'.m_keys = sample.m_keys ∧
      s'.get_public_column_count = sample.get_public_column_count ∧
      s'.get_column_count = sample.get_column_count ∧
      ∀ j, j ≠ 1 → s'.get_column_name j = sample.get_column_name j :=
  rename_column_frame sample 1 "bb" (by decide) (by decide)

/-! ## C7 -/

/-- C7. Attribute overwrite: on a descriptor whose sequences are parallel and for a
valid index `i`, `set_column_attr(i, A)` returns; afterwards `get_column_attr(i)` is
exactly `A`, whatever mask was stored before, the attribute of every other column is
what it was, and the types, names, enumeration references, keys and public column count
are unchanged. -/
theorem set_column_attr_overwrites (s : Spec) (i : Nat) (A : Int)
    (hwf : s.wellFormed) (hi : i < s.get_column_count) :
    ∃ s', s.set_column_attr i A = .ok s' ∧ s'.get_column_attr i = .ok A ∧
      (∀ j, j ≠ i → s'.get_column_attr j = s.get_column_attr j) ∧
      s'.m_types = s.m_types ∧ s'.m_names = s.m_names ∧ s'.m_enumkeys = s.m_enumkeys ∧
      s'.m_keys = s.m_keys ∧
      s'.get_public_column_count = s.get_public_column_count := by
  have hit : i < s.m_types.length := hi
  have hia : i < s.m_attr.length := by have := hwf.2.1; omega
  refine ⟨{ s with m_attr := s.m_attr.set i A }, ?_, ?_, ?_, rfl, rfl, rfl, rfl, rfl⟩
  · simp [set_column_attr, get_column_count, Seq.size, REALM_ASSERT, Seq.set, hit, hia, bind,
      Except.bind, pure, Except.pure]
  · simp [get_column_attr, get_column_count, Seq.size, REALM_ASSERT, Seq.get, hit, hia, bind,
      Except.bind]
  · intro j hj
    simp [get_column_attr, get_column_count, Seq.size, Seq.get,
      List.getElem?_set_ne (Ne.symm hj)]

theorem set_column_attr_overwrites_witness :
    ∃ s', sample.set_column_attr 1 4 = .ok s' ∧ s'.get_column_attr 1 = .ok 4 ∧
      (∀ j, j ≠ 1 → s'.get_column_attr j = sample.get_column_attr j) ∧
      s'.m_types = sample.m_types ∧ s'.m_names = sample.m_names ∧
      s'.m_enumkeys = sample.m_enumkeys ∧ s'.m_keys = sample.m_keys ∧
      s'.get_public_column_count = sample.get_public_column_count :=
  set_column_attr_overwrites sample 1 4 (by decide) (by decide)

/-! ## C8 -/

/-- C8. `get_column_type` exposes only the base type: at a valid index it returns the
type cell modulo `2^16`, so two descriptors whose cells at `i` agree modulo `2^16`
return the same column type, whatever the bits from 16 up are. -/
theorem get_column_type_low16 (s t : Spec) (i : Nat)
    (hs : i < s.get_column_count) (ht : i < t.get_column_count) :
    (∃ c, Seq.get s.m_types i = .ok c ∧ s.get_column_type i = .ok (c % 65536)) ∧
    (∀ c d, Seq.get s.m_types i = .ok c → Seq.get t.m_types i = .ok d →
      c % 65536 = d % 65536 → s.get_column_type i = t.get_column_type i) := by
  have hs' : i < s.m_types.length := hs
  have ht' : i < t.m_types.length := ht
  have key : ∀ (u : Spec) (hu : i < u.m_types.length),
      u.get_column_type i = .ok (u.m_types[i] % 65536) := by
    intro u hu
    have hm := Int.emod_nonneg u.m_types[i] (by norm_num : (65536 : Int) ≠ 0)
    have hl := Int.emod_lt_of_pos u.m_types[i] (by norm_num : (0 : Int) < 65536)
    simp [get_column_type, get_column_count, Seq.size, REALM_ASSERT, Seq.get, hu, bind,
      Except.bind, pure, Except.pure, land_low16,
      toInt32_of_range (u.m_types[i] % 65536) (by omega)]
  constructor
  · exact ⟨s.m_types[i], by simp [Seq.get, hs'], key s hs'⟩
  · intro c d hc hd hcd
    have ec : s.m_types[i] = c := by simpa [Seq.get, hs'] using hc
    have ed : t.m_types[i] = d := by simpa [Seq.get, ht'] using hd
    rw [key s hs', key t ht', ec, ed, hcd]

theorem get_column_type_low16_witness :
    (∃ c, Seq.get sample.m_types 1 = .ok c ∧ sample.get_column_type 1 = .ok (c % 65536)) ∧
    (∀ c d, Seq.get sample.m_types 1 = .ok c →
      Seq.get (Spec.mk [0, 327689] [] [] [] [] 0).m_types 1 = .ok d →
      c % 65536 = d % 65536 →
      sample.get_column_type 1 = (Spec.mk [0, 327689] [] [] [] [] 0).get_column_type 1) :=
  get_column_type_low16 sample (Spec.mk [0, 327689] [] [] [] [] 0) 1 (by decide) (by decide)


/-! ## C9 -/

/-- C9. At the index `3` of the three-column descriptor `sample` (an index that is not
a column), the five members that start with `REALM_ASSERT` stop at the assertion, but
`set_dictionary_key_type` and `get_column_name` carry no assertion: they address
`m_types` and `m_names` at the out-of-range index. -/
theorem out_of_range_index_reaches_sequence :
    sample.get_column_count = 3 ∧
    sample.set_dictionary_key_type 3 0 = .error .outOfRange ∧
    sample.get_column_name 3 = .error .outOfRange ∧
    sample.rename_column 3 "x" = .error .assertion ∧
    sample.get_column_type 3 = .error .assertion ∧
    sample.get_column_attr 3 = .error .assertion ∧
    sample.set_column_attr 3 0 = .error .assertion ∧
    sample.get_dictionary_key_type 3 = .error .assertion := by
  decide

/-! ## C10 -/

theorem column_eq_iff (a b : Spec) (i : Nat) :
    a.column_eq b i = true ↔
      a.m_types[i]? = b.m_types[i]? ∧ a.m_names[i]? = b.m_names[i]? ∧
      a.m_attr[i]? = b.m_attr[i]? ∧ a.enum_states[i]? = b.enum_states[i]? := by
  simp [column_eq, enum_states, List.getElem?_map, and_assoc]

theorem list_eq_of_agree_below {α : Type} (xs ys : List α) (n : Nat)
    (hx : xs.length = n) (hy : ys.length = n) (h : ∀ i, i < n → xs[i]? = ys[i]?) :
    xs = ys := by
  apply List.ext_getElem?
  intro i
  by_cases hi : i < n
  · exact h i hi
  · rw [List.getElem?_eq_none (by omega), List.getElem?_eq_none (by omega)]

/-- C10. Equality ignores keys: for descriptors whose sequences are parallel, `a == b`
holds exactly when the type cells, the names, the attributes and the enumeration states
of `a` and `b` are equal as sequences; and replacing the column keys of `a` by any
other keys gives a descriptor that compares equal to `a`. -/
theorem operator_eq_ignores_keys (a b : Spec) (ha : a.wellFormed) (hb : b.wellFormed) :
    (a.operator_eq b = true ↔
      a.m_types = b.m_types ∧ a.m_names = b.m_names ∧ a.m_attr = b.m_attr ∧
      a.enum_states = b.enum_states) ∧
    (∀ ks : List Int, a.operator_eq { a with m_keys := ks } = true) := by
  constructor
  · constructor
    · intro h
      simp only [operator_eq, get_column_count, Seq.size, Bool.and_eq_true, beq_iff_eq,
        List.all_eq_true, List.mem_range] at h
      obtain ⟨hlen, hcols⟩ := h
      have hc := fun i hi => (column_eq_iff a b i).1 (hcols i hi)
      obtain ⟨an, aa, ae, _⟩ := ha
      obtain ⟨bn, ba, be, _⟩ := hb
      refine ⟨?_, ?_, ?_, ?_⟩
      · exact list_eq_of_agree_below _ _ _ rfl hlen.symm (fun i hi => (hc i hi).1)
      · exact list_eq_of_agree_below _ _ _ an (by omega) (fun i hi => (hc i hi).2.1)
      · exact list_eq_of_agree_below _ _ _ aa (by omega) (fun i hi => (hc i hi).2.2.1)
      · exact list_eq_of_agree_below _ _ _ (by simp [enum_states, ae])
          (by simp [enum_states]; omega) (fun i hi => (hc i hi).2.2.2)
    · rintro ⟨ht, hn, hat, hen⟩
      simp only [operator_eq, get_column_count, Seq.size, Bool.and_eq_true, beq_iff_eq,
        List.all_eq_true, List.mem_range]
      refine ⟨by rw [ht], ?_⟩
      intro i _
      rw [column_eq_iff, ht, hn, hat, hen]
      exact ⟨rfl, rfl, rfl, rfl⟩
  · intro ks
    simp only [operator_eq, get_column_count, Seq.size, Bool.and_eq_true, beq_iff_eq,
      List.all_eq_true, List.mem_range]
    refine ⟨trivial, ?_⟩
    intro i _
    exact (column_eq_iff _ _ _).2 ⟨rfl, rfl, rfl, rfl⟩

theorem operator_eq_ignores_keys_witness :
    (sample.operator_eq { sample with m_keys := [7, 8, 9], m_enumkeys := [0, 0, 5] } = true ↔
      sample.m_types = sample.m_types ∧ sample.m_names = sample.m_names ∧
      sample.m_attr = sample.m_attr ∧
      sample.enum_states =
        Spec.enum_states { sample with m_keys := [7, 8, 9], m_enumkeys := [0, 0, 5] }) ∧
    (∀ ks : List Int, sample.operator_eq { sample with m_keys := ks } = true) :=
  operator_eq_ignores_keys sample { sample with m_keys := [7, 8, 9], m_enumkeys := [0, 0, 5] }
    (by decide) (by decide)


/-! ## C11 -/

/-- C12. Enum upgrade read-back: on a descriptor whose sequences are parallel, for a
valid index `i` and a reference `R` to an enumeration table (a reference is not the null
value `0`), `upgrade_string_to_enum(i, R)` returns, after which `is_string_enum_type(i)`
is true and `get_enumkeys_ref(i)` returns `R`. -/
theorem upgrade_string_to_enum_read_back (s : Spec) (i : Nat) (R : Int)
    (hwf : s.wellFormed) (hi : i < s.get_column_count) (hR : R ≠ 0) :
    ∃ s', s.upgrade_string_to_enum i R = .ok s' ∧
      s'.is_string_enum_type i = .ok true ∧ s'.get_enumkeys_ref i = .ok R := by
  have hit : i < s.m_types.length := hi
  have hie : i < s.m_enumkeys.length := by have := hwf.2.2.1; omega
  refine ⟨{ s with m_enumkeys := s.m_enumkeys.set i R }, ?_, ?_, ?_⟩
  · simp [upgrade_string_to_enum, get_column_count, Seq.size, REALM_ASSERT, Seq.set, hit, hie,
      bind, Except.bind, pure, Except.pure]
  · simp [is_string_enum_type, get_column_count, Seq.size, REALM_ASSERT, Seq.get, hit, hie,
      bind, Except.bind, pure, Except.pure, hR]
  · simp [get_enumkeys_ref, get_column_count, Seq.size, REALM_ASSERT, Seq.get, hit, hie,
      bind, Except.bind]

theorem upgrade_string_to_enum_read_back_witness :
    ∃ s', sample.upgrade_string_to_enum 1 42 = .ok s' ∧
      s'.is_string_enum_type 1 = .ok true ∧ s'.get_enumkeys_ref 1 = .ok 42 :=
  upgrade_string_to_enum_read_back sample 1 42 (by decide) (by decide) (by decide)

/-! ## C15 -/

/-- C15. Six-slot node layout: the constructor binds the types, names, attributes,
enumeration references and keys to the slots 0, 1, 2, 4 and 5 of `m_top`; the five slots
are pairwise distinct, each is below `s_spec_max_size = 6`, and none is the vacant
slot 3. -/
theorem six_slot_layout :
    ndx_in_parent .m_types = 0 ∧ ndx_in_parent .m_names = 1 ∧ ndx_in_parent .m_attr = 2 ∧
    ndx_in_parent .m_enumkeys = 4 ∧ ndx_in_parent .m_keys = 5 ∧
    Function.Injective ndx_in_parent ∧
    (∀ m, ndx_in_parent m < s_spec_max_size) ∧
    (∀ m, ndx_in_parent m ≠ s_vacant_1) ∧
    s_vacant_1 = 3 ∧ s_spec_max_size = 6 := by
  refine ⟨rfl, rfl, rfl, rfl, rfl, ?_, ?_, ?_, rfl, rfl⟩
  · intro a b h
    cases a <;> cases b <;> first | rfl | (exact absurd h (by decide))
  · intro m; cases m <;> decide
  · intro m; cases m <;> decide


/-! ## C16 -/

/-- The number `q * 2^16 + 65535` with the bits of `m < 2^16` removed. -/
theorem nat_ldiff_high (q m : Nat) (hm : m < 65536) :
    Nat.ldiff (65536 * q + 65535) m = 65536 * q + (65535 - m) := by
  apply Nat.eq_of_testBit_eq
  intro i
  have e16 : (65536 : Nat) = 2 ^ 16 := by norm_num
  have h1 : (65535 : Nat) < 2 ^ 16 := by norm_num
  have h2 : 65535 - m < 2 ^ 16 := by omega
  have e3 : 65535 - m = 2 ^ 16 - (m + 1) := by omega
  rw [Nat.testBit_ldiff, e16, Nat.testBit_mul_pow_two_add q h1, Nat.testBit_mul_pow_two_add q h2]
  by_cases hi : i < 16
  · simp only [hi, if_true]
    rw [e3, Nat.testBit_two_pow_sub_succ (by omega)]
    have : (65535 : Nat) = 2 ^ 16 - 1 := by norm_num
    rw [this, Nat.testBit_two_pow_sub_one]
  · simp only [hi, if_false]
    have hmi : m.testBit i = false :=
      Nat.testBit_lt_two_pow (Nat.lt_of_lt_of_le (by omega : m < 2 ^ 16)
        (Nat.pow_le_pow_right (by norm_num) (by omega)))
    simp [hmi]

/-- OR-ing a 16-bit value into a multiple of `2^16` (of either sign) is adding it. -/
theorem lor_low_high (m : Int) (K : Int) (hm : 0 ≤ m ∧ m < 65536) :
    Int.lor m (K * 65536) = m + K * 65536 := by
  obtain ⟨a, rfl⟩ := Int.eq_ofNat_of_zero_le hm.1
  have ha : a < 65536 := by omega
  rcases Int.lt_or_le K 0 with hK | hK
  · obtain ⟨q, hq⟩ : ∃ q : Nat, K = -((q : Int) + 1) := ⟨(-K - 1).toNat, by omega⟩
    have e : K * 65536 = Int.negSucc (65536 * q + 65535) := by
      rw [hq, Int.negSucc_eq]; push_cast; ring
    rw [e]
    show Int.negSucc (Nat.ldiff (65536 * q + 65535) a) = _
    rw [nat_ldiff_high q a ha, Int.negSucc_eq, Int.negSucc_eq]
    push_cast
    omega
  · obtain ⟨k, rfl⟩ := Int.eq_ofNat_of_zero_le hK
    have e : ((k : Int) * 65536) = ((65536 * k : Nat) : Int) := by push_cast; ring
    rw [e]
    show (((a ||| 65536 * k : Nat)) : Int) = _
    have := Nat.mul_add_lt_is_or (show a < 2 ^ 16 by omega) k
    have e2 : a ||| 65536 * k = 65536 * k + a := by
      rw [Nat.lor_comm]; simpa using this.symm
    rw [e2]; push_cast; ring

/-- C16. Packing equals clear-and-OR: for the cell `c` at index `i` and a key type code
`K` in the 32-bit range, the value `(c & 0xFFFF) + (K << 16)` written by
`set_dictionary_key_type` is the value `(c & 0xFFFF) | (K << 16)`; its low 16 bits are
those of `c` and its bits from 16 up are `K`, so no carry reaches either field. -/
theorem packing_equals_clear_and_or (s : Spec) (i : Nat) (c K : Int)
    (hc : Seq.get s.m_types i = .ok c) (hK : -2 ^ 31 ≤ K ∧ K < 2 ^ 31) :
    wrap64 (Int.land c 0xFFFF + wrap64 (K <<< (16 : Int))) = clear_and_or c K ∧
    s.set_dictionary_key_type i K =
      .ok { s with m_types := s.m_types.set i (clear_and_or c K) } ∧
    Int.land (clear_and_or c K) 0xFFFF = Int.land c 0xFFFF ∧
    (clear_and_or c K) >>> (16 : Nat) = K := by
  have hm := Int.emod_nonneg c (by norm_num : (65536 : Int) ≠ 0)
  have hl := Int.emod_lt_of_pos c (by norm_num : (0 : Int) < 65536)
  have hor : clear_and_or c K = c % 65536 + K * 65536 := by
    unfold clear_and_or
    rw [land_low16, shiftLeft_16, wrap64_of_range (K * 65536) (by omega)]
    exact lor_low_high _ K ⟨hm, hl⟩
  have hadd := packed_cell c K hK
  have hi : i < s.m_types.length := by
    by_contra hge
    rw [Seq.get_of_le _ _ (Nat.le_of_not_lt hge)] at hc
    simp at hc
  have hci : s.m_types[i] = c := by simpa [Seq.get, hi] using hc
  refine ⟨by rw [hadd, hor], ?_, ?_, ?_⟩
  · simp [set_dictionary_key_type, Seq.get, Seq.set, hi, bind, Except.bind, pure, Except.pure,
      hci, hadd, hor]
  · rw [land_low16, land_low16, hor]; omega
  · rw [shiftRight_16, hor]; omega

theorem packing_equals_clear_and_or_witness :
    wrap64 (Int.land 9 0xFFFF + wrap64 ((-3 : Int) <<< (16 : Int))) = clear_and_or 9 (-3) ∧
    sample.set_dictionary_key_type 1 (-3) =
      .ok { sample with m_types := sample.m_types.set 1 (clear_and_or 9 (-3)) } ∧
    Int.land (clear_and_or 9 (-3)) 0xFFFF = Int.land 9 0xFFFF ∧
    (clear_and_or 9 (-3)) >>> (16 : Nat) = -3 :=
  packing_equals_clear_and_or sample 1 9 (-3) (by decide) (by decide)

/-! ## C17 -/

/-- C17. The two getters losslessly decode a type cell: when the cell `c` at index `i`
satisfies `0 ≤ c < 2^47`, `get_column_type(i)` returns some `T` with `0 ≤ T < 65536`,
`get_dictionary_key_type(i)` returns some `K`, and `c = T + 65536 * K`; `K` is the
untruncated `c >> 16`. -/
theorem getters_decode_cell (s : Spec) (i : Nat) (c : Int)
    (hc : Seq.get s.m_types i = .ok c) (hr : 0 ≤ c ∧ c < 2 ^ 47) :
    ∃ T K, s.get_column_type i = .ok T ∧ s.get_dictionary_key_type i = .ok K ∧
      c = T + 65536 * K ∧ 0 ≤ T ∧ T < 65536 ∧ K = c >>> (16 : Nat) := by
  have hi : i < s.m_types.length := by
    by_contra hge
    rw [Seq.get_of_le _ _ (Nat.le_of_not_lt hge)] at hc
    simp at hc
  have hci : s.m_types[i] = c := by simpa [Seq.get, hi] using hc
  have hm := Int.emod_nonneg c (by norm_num : (65536 : Int) ≠ 0)
  have hl := Int.emod_lt_of_pos c (by norm_num : (0 : Int) < 65536)
  refine ⟨c % 65536, c / 65536, ?_, ?_, ?_, hm, hl, ?_⟩
  · simp [get_column_type, get_column_count, Seq.size, REALM_ASSERT, Seq.get, hi, bind,
      Except.bind, pure, Except.pure, hci, land_low16,
      toInt32_of_range (c % 65536) (by omega)]
  · simp [get_dictionary_key_type, get_column_count, Seq.size, REALM_ASSERT, Seq.get, hi, bind,
      Except.bind, pure, Except.pure, hci, shiftRight_16,
      toInt32_of_range (c / 65536) (by omega)]
  · omega
  · rw [shiftRight_16]

theorem getters_decode_cell_witness :
    ∃ T K, sample.get_column_type 1 = .ok T ∧ sample.get_dictionary_key_type 1 = .ok K ∧
      (9 : Int) = T + 65536 * K ∧ 0 ≤ T ∧ T < 65536 ∧ K = (9 : Int) >>> (16 : Nat) :=
  getters_decode_cell sample 1 9 (by decide) (by decide)

/-! ## C18 -/

/-- The low 16 bits of the cell written by `set_dictionary_key_type` are those of the
old cell, for every key type code. -/
theorem written_cell_low16 (c K : Int) :
    Int.land (wrap64 (Int.land c 0xFFFF + wrap64 (K <<< (16 : Int)))) 0xFFFF =
      Int.land c 0xFFFF := by
  rw [land_low16, land_low16, shiftLeft_16]
  unfold wrap64
  omega

/-- C18. `set_dictionary_key_type` is last-write-wins: at a valid index `i`, the call
with `K1` followed by the call with `K2` returns the state that the call with `K2` alone
returns; and that state differs from the starting one in nothing but the type cell at
index `i`. -/
theorem set_dictionary_key_type_last_write_wins (s : Spec) (i : Nat) (K1 K2 : Int)
    (hi : i < s.get_column_count) :
    ∃ s1 s12 s2, s.set_dictionary_key_type i K1 = .ok s1 ∧
      s1.set_dictionary_key_type i K2 = .ok s12 ∧
      s.set_dictionary_key_type i K2 = .ok s2 ∧ s12 = s2 ∧
      s2.m_names = s.m_names ∧ s2.m_attr = s.m_attr ∧ s2.m_enumkeys = s.m_enumkeys ∧
      s2.m_keys = s.m_keys ∧ s2.m_num_public_columns = s.m_num_public_columns ∧
      s2.get_column_count = s.get_column_count ∧
      ∀ j, j ≠ i → Seq.get s2.m_types j = Seq.get s.m_types j := by
  have hi' : i < s.m_types.length := hi
  have hstep : ∀ (t : Spec) (ht : i < t.m_types.length) (K : Int),
      t.set_dictionary_key_type i K = .ok { t with m_types := (t.m_types.set i
        (wrap64 (Int.land t.m_types[i] 0xFFFF + wrap64 (K <<< (16 : Int))))) } := by
    intro t ht K
    simp [set_dictionary_key_type, Seq.get, Seq.set, ht, bind, Except.bind, pure, Except.pure]
  refine ⟨_, _, _, hstep s hi' K1, hstep _ (by simpa using hi') K2, hstep s hi' K2,
    ?_, rfl, rfl, rfl, rfl, rfl, ?_, ?_⟩
  · simp [written_cell_low16]
  · simp [get_column_count, Seq.size]
  · intro j hj
    simp [Seq.get, List.getElem?_set_ne (Ne.symm hj)]

theorem set_dictionary_key_type_last_write_wins_witness :
    ∃ s1 s12 s2, sample.set_dictionary_key_type 1 5 = .ok s1 ∧
      s1.set_dictionary_key_type 1 8 = .ok s12 ∧
      sample.set_dictionary_key_type 1 8 = .ok s2 ∧ s12 = s2 ∧
      s2.m_names = sample.m_names ∧ s2.m_attr = sample.m_attr ∧
      s2.m_enumkeys = sample.m_enumkeys ∧
      s2.m_keys = sample.m_keys ∧ s2.m_num_public_columns = sample.m_num_public_columns ∧
      s2.get_column_count = sample.get_column_count ∧
      ∀ j, j ≠ 1 → Seq.get s2.m_types j = Seq.get sample.m_types j :=
  set_dictionary_key_type_last_write_wins sample 1 5 8 (by decide)

/-! ## C19 -/

/-- C19. Bounds checks against the types length protect the other sequences: on a
descriptor whose five sequences have equal length, for an index that passes
`index < m_types.size()`, the write of `rename_column` to the names and the read and
write of `get_column_attr` and `set_column_attr` on the attributes are in range, and
none of the three calls stops in the out-of-range branch of the array. -/
theorem bounds_check_protects_sequences (s : Spec) (i : Nat) (N : String) (A : Int)
    (hwf : s.wellFormed) (hi : i < Seq.size s.m_types) :
    (∃ names, Seq.set s.m_names i N = .ok names) ∧
    (∃ a, Seq.get s.m_attr i = .ok a) ∧
    (∃ attrs, Seq.set s.m_attr i A = .ok attrs) ∧
    (∃ s', s.rename_column i N = .ok s') ∧
    (∃ a, s.get_column_attr i = .ok a) ∧
    (∃ s', s.set_column_attr i A = .ok s') := by
  obtain ⟨hn, ha, _, _⟩ := hwf
  have hit : i < s.m_types.length := hi
  have hin : i < s.m_names.length := by omega
  have hia : i < s.m_attr.length := by omega
  refine ⟨⟨_, Seq.set_of_lt _ i N hin⟩, ⟨_, Seq.get_of_lt _ i hia⟩,
    ⟨_, Seq.set_of_lt _ i A hia⟩, ⟨{ s with m_names := s.m_names.set i N }, ?_⟩,
    ⟨s.m_attr.get ⟨i, hia⟩, ?_⟩, ⟨{ s with m_attr := s.m_attr.set i A }, ?_⟩⟩
  · simp [rename_column, Seq.size, REALM_ASSERT, Seq.set, hit, hin, bind, Except.bind, pure,
      Except.pure]
  · simp [get_column_attr, get_column_count, Seq.size, REALM_ASSERT, Seq.get, hit, hia, bind,
      Except.bind]
  · simp [set_column_attr, get_column_count, Seq.size, REALM_ASSERT, Seq.set, hit, hia, bind,
      Except.bind, pure, Except.pure]

theorem bounds_check_protects_sequences_witness :
    (∃ names, Seq.set sample.m_names 2 "z" = .ok names) ∧
    (∃ a, Seq.get sample.m_attr 2 = .ok a) ∧
    (∃ attrs, Seq.set sample.m_attr 2 4 = .ok attrs) ∧
    (∃ s', sample.rename_column 2 "z" = .ok s') ∧
    (∃ a, sample.get_column_attr 2 = .ok a) ∧
    (∃ s', sample.set_column_attr 2 4 = .ok s') :=
  bounds_check_protects_sequences sample 2 "z" 4 (by decide) (by decide)

/-! ## C20 -/

/-- C20. Inequality is the exact negation of equality: `a != b` is `!(a == b)`, so at
least one of `a == b` and `a != b` holds, never both, and `a != a` is false whenever
`a == a` is true. -/
theorem operator_ne_is_negation (a b : Spec) :
    a.operator_ne b = !(a.operator_eq b) ∧
    (a.operator_eq b = true ∨ a.operator_ne b = true) ∧
    ¬ (a.operator_eq b = true ∧ a.operator_ne b = true) ∧
    (a.operator_eq a && a.operator_ne a) = false := by
  unfold operator_ne
  refine ⟨rfl, ?_, ?_, ?_⟩
  · cases a.operator_eq b <;> simp
  · cases a.operator_eq b <;> simp
  · cases a.operator_eq a <;> simp

end Spec

end Realm
